import Mathlib

/-!
Verification development for the openGemini vectorized query-execution core.

The development shallowly embeds:
  * `open_src/influx/query/select.go` — `ProcessorOptions`, `Window`,
    `NewProcessorOptionsStmt`, `newProcessorOptionsSubstatement`;
  * the chunk data model and the streaming-aggregate / cursor behaviour that
    `engine/executor/agg_transform_test.go` and `engine/shard_test.go` exercise
    (the implementations of those components are not among the sources, so they
    are modelled from the specification and validated against the test
    fixtures, which are among the sources).

Go `int64` arithmetic that can overflow is embedded over `Int` with an explicit
two's-complement wrap (`wrap64`).
-/

namespace OpenGemini

/-- Two's-complement wraparound of Go `int64` arithmetic: normalizes an
unbounded integer into `[-2^63, 2^63)`. -/
def wrap64 (x : Int) : Int := (x + 2 ^ 63) % 2 ^ 64 - 2 ^ 63

/-- Modelled from the spec: the global minimum sentinel timestamp
(`influxql.MinTime = models.MinNanoTime - 1 = math.MinInt64 + 1`; the
`influxql` package is not among the sources). -/
def MinTime : Int := -(2 ^ 63) + 1

/-- Modelled from the spec: the global maximum sentinel timestamp
(`influxql.MaxTime = models.MaxNanoTime = math.MaxInt64 - 1`; the
`influxql` package is not among the sources). -/
def MaxTime : Int := 2 ^ 63 - 2

/-- Embeds `hybridqp.Interval`: a group-by interval, duration and offset in
nanoseconds (Go `time.Duration`, an `int64`). The `hybridqp` package is not
among the sources; the shape is taken from its uses in `select.go`. -/
structure Interval where
  duration : Int
  offset : Int
deriving DecidableEq

/-- Modelled from the spec: `hybridqp.Interval.IsZero` — an interval is zero
when its duration is zero (used by `ProcessorOptions.Window` and
`newProcessorOptionsSubstatement`). -/
def Interval.IsZero (i : Interval) : Bool := i.duration == 0

/-- Embeds `influxql.FillOption` (the fill policies a statement can carry). -/
inductive FillOption where
  | nullFill
  | noFill
  | numberFill
  | previousFill
  | linearFill
deriving DecidableEq

/-- Embeds `query.ProcessorOptions` (select.go), trimmed to the fields the verified
claims touch. `GroupBy` (a Go `map[string]struct{}`) is embedded as a
duplicate-free list of keys. The `Location` field is omitted: the embedding
covers the `Location == nil` paths (with a nil location `Zone` returns offset
0 and every timezone adjustment in `Window` is a no-op). -/
structure ProcessorOptions where
  name : String := ""
  interval : Interval := ⟨0, 0⟩
  dimensions : List String := []
  groupBy : List String := []
  fill : FillOption := .nullFill
  startTime : Int := 0
  endTime : Int := 0
  limit : Int := 0
  offset : Int := 0
  slimit : Int := 0
  soffset : Int := 0
  ascending : Bool := false
  dedupe : Bool := false
  stripName : Bool := false
  ordered : Bool := false
  maxSeriesN : Int := 0
  chunkedSize : Int := 0
  chunked : Bool := false
  chunkSize : Int := 0
  maxParallel : Int := 0
  groupByAllDims : Bool := false
deriving DecidableEq

/-- Embeds `query.SelectOptions` (select.go), trimmed to the fields
`NewProcessorOptionsStmt` copies into the options. -/
structure SelectOptions where
  maxSeriesN : Int := 0
  chunkedSize : Int := 0
  chunked : Bool := false
  chunkSize : Int := 0
  maxQueryParallel : Int := 0
deriving DecidableEq

/-- Modelled from the spec: an `influxql.SelectStatement` as consumed by
`NewProcessorOptionsStmt` / `newProcessorOptionsSubstatement`. The `influxql`
package is not among the sources, so the statement is represented by the
results of the helpers `select.go` calls on it: `ConditionExpr`'s extracted
time range (`condTimeMin`/`condTimeMax`, `none` when the bound is the zero
time), `GroupByInterval`, `GroupByOffset`, the `VarRef` dimension names,
`TimeAscending`, and the plain option fields. -/
structure SelectStatement where
  condTimeMin : Option Int := none
  condTimeMax : Option Int := none
  groupByInterval : Int := 0
  groupByOffset : Int := 0
  dimensions : List String := []
  timeAscending : Bool := true
  dedupe : Bool := false
  stripName : Bool := false
  fill : FillOption := .nullFill
  hasTarget : Bool := false
  limit : Int := 0
  offset : Int := 0
  slimit : Int := 0
  soffset : Int := 0
  isRawQuery : Bool := false
  groupByAllDims : Bool := false
deriving DecidableEq

/-- Embeds `query.ContainDim` (select.go): true when `src` is not already among
`des`. -/
def ContainDim (des : List String) (src : String) : Bool :=
  !des.contains src

/-- Embeds `query.NewProcessorOptionsStmt` (select.go): derives `ProcessorOptions`
from a statement and `SelectOptions`. The error paths of `ConditionExpr`,
`GroupByInterval` and `GroupByOffset` are outside the statement model (the
statement fields already carry those helpers' results), so the embedding is
total. -/
def NewProcessorOptionsStmt (stmt : SelectStatement) (sopt : SelectOptions) :
    ProcessorOptions :=
  let startTime := match stmt.condTimeMin with
    | some t => t
    | none => MinTime
  let endTime := match stmt.condTimeMax with
    | some t => t
    | none => MaxTime
  let intervalOffset := if stmt.groupByInterval > 0 then stmt.groupByOffset else 0
  let intervalDuration := if stmt.groupByInterval < 0 then 0 else stmt.groupByInterval
  let dims := stmt.dimensions.foldl
    (fun acc d => if ContainDim acc d then acc ++ [d] else acc) []
  { startTime := startTime
    endTime := endTime
    interval := ⟨intervalDuration, intervalOffset⟩
    ordered := true
    dimensions := dims
    groupBy := dims
    ascending := stmt.timeAscending
    dedupe := stmt.dedupe
    stripName := stmt.stripName
    fill := if stmt.fill == .nullFill && stmt.hasTarget then .noFill else stmt.fill
    limit := stmt.limit
    offset := stmt.offset
    slimit := stmt.slimit
    soffset := stmt.soffset
    maxSeriesN := sopt.maxSeriesN
    chunkedSize := sopt.chunkedSize
    chunked := sopt.chunked
    chunkSize := sopt.chunkSize
    maxParallel := sopt.maxQueryParallel
    groupByAllDims := stmt.groupByAllDims }

/-- Embeds `query.newProcessorOptionsSubstatement` (select.go): derives the child
options of a subquery from the substatement and the parent options. `ctxNow`
embeds the optional `"now"` context value (`UnixNano` of the query's wall
clock). The second `ConditionExpr` call extracts the same time range from the
same condition, so it reuses `condTimeMin`/`condTimeMax`. -/
def newProcessorOptionsSubstatement (ctxNow : Option Int)
    (stmt : SelectStatement) (opt : ProcessorOptions) : ProcessorOptions :=
  let subOpt := NewProcessorOptionsStmt stmt { maxSeriesN := opt.maxSeriesN }
  -- clamp the child's time range to the parent's
  let subOpt := { subOpt with
    startTime := if subOpt.startTime < opt.startTime then opt.startTime
      else subOpt.startTime }
  let subOpt := { subOpt with
    endTime := if subOpt.endTime > opt.endTime then opt.endTime
      else subOpt.endTime }
  -- replace an unbounded end time with the "now" context value
  let subOpt := { subOpt with
    endTime := if !subOpt.interval.IsZero && subOpt.endTime == MaxTime then
        match ctxNow with
        | some now => now
        | none => subOpt.endTime
      else subOpt.endTime }
  -- propagate the dimensions to the inner subquery
  let subOpt := { subOpt with
    dimensions := opt.dimensions
    groupBy := opt.groupBy.foldl
      (fun g d => if g.contains d then g else g ++ [d]) subOpt.groupBy }
  -- use the substatement's extracted time range when it is more constrained
  let subOpt := { subOpt with
    startTime := match stmt.condTimeMin with
      | some m => if m > opt.startTime then m else subOpt.startTime
      | none => subOpt.startTime }
  let subOpt := { subOpt with
    endTime := match stmt.condTimeMax with
      | some m => if m < opt.endTime then m else subOpt.endTime
      | none => subOpt.endTime }
  -- propagate the SLIMIT and SOFFSET from the outer query
  let subOpt := { subOpt with
    slimit := subOpt.slimit + opt.slimit
    soffset := subOpt.soffset + opt.soffset }
  -- propagate the ordering from the parent query
  let subOpt := { subOpt with ascending := opt.ascending }
  -- NULL fill degrades to NONE fill for non-raw subqueries
  let subOpt := { subOpt with
    fill := if !stmt.isRawQuery && subOpt.fill == FillOption.nullFill then
        FillOption.noFill
      else subOpt.fill }
  -- inherit the ordering method from the outer query
  let subOpt := { subOpt with ordered := opt.ordered }
  -- inherit the parent interval when the subquery has none
  { subOpt with
    interval := if stmt.groupByInterval == 0 then opt.interval
      else subOpt.interval }

/-- Embeds `ProcessorOptions.Window` (select.go): the time window `[start, end)`
that `t` falls within. Embeds the `Location == nil` paths: `Zone` returns
offset 0, so the three timezone adjustments are no-ops. Arithmetic that can
overflow a Go `int64` goes through `wrap64`. -/
def ProcessorOptions.Window (opt : ProcessorOptions) (t : Int) : Int × Int :=
  if opt.interval.IsZero then
    (opt.startTime, wrap64 (opt.endTime + 1))
  else
    let t1 := wrap64 (t - opt.interval.offset)
    let dt0 := Int.tmod t1 opt.interval.duration
    let dt := if dt0 < 0 then wrap64 (dt0 + opt.interval.duration) else dt0
    let start0 := if t1 ≤ wrap64 (MinTime + dt) then MinTime
      else wrap64 (t1 - dt)
    let start1 := wrap64 (start0 + opt.interval.offset)
    let dtE := wrap64 (opt.interval.duration - dt)
    let end0 := if wrap64 (MaxTime - dtE) ≤ t1 then MaxTime
      else wrap64 (t1 + dtE)
    let end1 := wrap64 (end0 + opt.interval.offset)
    (start1, end1)

/-! ## Chunk data model

The `executor.Chunk` implementation is not among the sources; the model below
follows the specification (§3, §4.1) and mirrors the builder calls used by the
test fixtures (`AppendTagsAndIndexes`, `AppendIntervalIndex`, `AppendTime`,
`AppendXxxValues`, `AppendNilsV2`, `AppendManyNotNil`). Go `float64` column
values are embedded as `Rat`; the aggregate functions verified here only
compare or subtract them, so the embedding is order- and
difference-faithful on the fixture values. -/

/-- A typed field value of a column-vector (integer, float, string or
boolean). -/
inductive FieldVal where
  | i : Int → FieldVal
  | f : Rat → FieldVal
  | s : String → FieldVal
  | b : Bool → FieldVal
deriving DecidableEq

/-- One column of a chunk in builder form: the appended values plus the
per-row null bitmap (`true` = value present), mirroring
`AppendXxxValues` followed by `AppendNilsV2`. -/
structure ColumnData where
  vals : List FieldVal
  nils : List Bool
deriving DecidableEq

/-- Mirrors `AppendManyNotNil n`: a bitmap of `n` present rows. -/
def notNil (n : Nat) : List Bool := List.replicate n true

/-- Modelled from the spec: a columnar chunk — name, tag-group descriptors
(`tags` with their starting row indexes `tagIndex`), interval-window starting
row indexes, the time column, and one column per schema field. -/
structure Chunk where
  name : String
  tags : List String
  tagIndex : List Nat
  intervalIndex : List Nat
  time : List Int
  columns : List ColumnData
deriving DecidableEq

/-- Mirrors `Chunk.RowNums`: the number of rows (length of the time column). -/
def Chunk.RowNums (c : Chunk) : Nat := c.time.length

/-- Per-row optional values of one column, decoded from the value list and the
null bitmap (a `true` bit consumes the next value). -/
def colRows (vs : List FieldVal) : List Bool → List (Option FieldVal)
  | [] => []
  | false :: ns => none :: colRows vs ns
  | true :: ns =>
    match vs with
    | [] => none :: colRows [] ns
    | v :: rest => some v :: colRows rest ns

/-- One logical row of a chunk: its timestamp and one optional value per
column. -/
structure Row where
  time : Int
  vals : List (Option FieldVal)
deriving DecidableEq

/-- All rows of a chunk, in order. -/
def Chunk.rowsAll (c : Chunk) : List Row :=
  (List.range c.time.length).map (fun idx =>
    { time := c.time.getD idx 0
      vals := c.columns.map (fun col => (colRows col.vals col.nils).getD idx none) })

/-- The half-open row spans `[start, stop)` delimited by a boundary index
list, the last span ending at `n`. -/
def tagSpans (n : Nat) : List Nat → List (Nat × Nat)
  | [] => []
  | a :: rest =>
    (a, match rest with
        | [] => n
        | b :: _ => b) :: tagSpans n rest

/-- The tag groups of a chunk: each tag paired with its contiguous row span. -/
def Chunk.groups (c : Chunk) : List (String × List Row) :=
  (c.tags.zip (tagSpans c.RowNums c.tagIndex)).map
    (fun p => (p.1, (c.rowsAll.drop p.2.1).take (p.2.2 - p.2.1)))

/-! ## Streaming aggregate transform, windowed reducer family

Modelled from the spec (§4.3): the transform walks tag groups in order,
buckets each group's rows into time windows, folds one reducer per
destination column over the window's rows, and emits one output row per
window that contains at least one non-null aggregated value. Reducer state —
and the window of the last tag group of a chunk — carries into the next chunk
when that chunk starts with the same tag group and window. The output row's
timestamp is the time of the first row of the window's segment in the chunk
that starts or continues the window, as fixed by the source test fixtures
(`buildTargetChunk` rows the `name=ccc` window at time 6, the first row of
its continuation segment, not 5). -/

/-- A windowed reducer kind (the family exercised by the verified claims). -/
inductive AggKind where
  | count
  | minAgg
  | maxAgg
deriving DecidableEq

/-- One aggregate binding: reducer kind and source column index. -/
structure AggSpec where
  kind : AggKind
  srcCol : Nat
deriving DecidableEq

/-- Reducer carry state: a counter for `count`, a best-so-far value for the
selector reducers. -/
inductive AggState where
  | cnt : Nat → AggState
  | sel : Option FieldVal → AggState
deriving DecidableEq

/-- Strict order on same-typed field values (the orders the typed reducer
variants use). -/
def fvLt : FieldVal → FieldVal → Bool
  | .i a, .i b => a < b
  | .f a, .f b => a < b
  | .s a, .s b => a < b
  | .b a, .b b => !a && b
  | _, _ => false

/-- Initial reducer state. -/
def aggInit : AggKind → AggState
  | .count => .cnt 0
  | .minAgg => .sel none
  | .maxAgg => .sel none

/-- Fold one optional source value into the reducer state; null values leave
the state unchanged. -/
def aggStep (k : AggKind) (st : AggState) (v : Option FieldVal) : AggState :=
  match v with
  | none => st
  | some x =>
    match k, st with
    | .count, .cnt n => .cnt (n + 1)
    | .minAgg, .sel none => .sel (some x)
    | .minAgg, .sel (some w) => .sel (some (if fvLt x w then x else w))
    | .maxAgg, .sel none => .sel (some x)
    | .maxAgg, .sel (some w) => .sel (some (if fvLt w x then x else w))
    | _, st2 => st2

/-- Finalize a reducer: a window with no non-null input yields a null output
value; `count` outputs an integer regardless of the source column type. -/
def aggFinal : AggState → Option FieldVal
  | .cnt 0 => none
  | .cnt (n + 1) => some (.i (n + 1))
  | .sel v => v

/-- The per-spec initial accumulators. -/
def initAccs (specs : List AggSpec) : List AggState :=
  specs.map (fun sp => aggInit sp.kind)

/-- Fold one row into every binding's accumulator. -/
def stepAccs (specs : List AggSpec) (accs : List AggState) (r : Row) :
    List AggState :=
  List.zipWith (fun sp st => aggStep sp.kind st (r.vals.getD sp.srcCol none))
    specs accs

/-- The window being accumulated: its tag, window key, designated output
timestamp, and accumulators. -/
structure PendingWin where
  tag : String
  key : Int × Int
  time : Int
  accs : List AggState
deriving DecidableEq

/-- Close a window: emit its output row unless every finalized accumulator is
null (the null-window elision of spec §4.3 step 3). -/
def flushPending (p : PendingWin) : List (String × Row) :=
  let finals := p.accs.map aggFinal
  if finals.all Option.isNone then []
  else [(p.tag, { time := p.time, vals := finals })]

/-- Feed one row of tag group `tag`: continue the pending window when the tag
and window key match (restamping the output time when the row starts a new
chunk), otherwise close the pending window and open a new one. -/
def stepRow (opt : ProcessorOptions) (specs : List AggSpec) (chunkStart : Bool)
    (st : Option PendingWin) (tag : String) (r : Row) :
    List (String × Row) × Option PendingWin :=
  let key := opt.Window r.time
  match st with
  | some p =>
    if p.tag = tag ∧ p.key = key then
      ([], some { tag := tag, key := key,
                  time := if chunkStart then r.time else p.time,
                  accs := stepAccs specs p.accs r })
    else
      (flushPending p,
       some { tag := tag, key := key, time := r.time,
              accs := stepAccs specs (initAccs specs) r })
  | none =>
    ([], some { tag := tag, key := key, time := r.time,
                accs := stepAccs specs (initAccs specs) r })

/-- Feed the rows of one tag group (`chunkStart` is true only for the first
row of a chunk). -/
def procGroupRows (opt : ProcessorOptions) (specs : List AggSpec) (tag : String) :
    List Row → Bool → Option PendingWin →
    List (String × Row) × Option PendingWin
  | [], _, st => ([], st)
  | r :: rest, chunkStart, st =>
    let p1 := stepRow opt specs chunkStart st tag r
    let p2 := procGroupRows opt specs tag rest false p1.2
    (p1.1 ++ p2.1, p2.2)

/-- Feed the tag groups of one chunk in order. -/
def procGroups (opt : ProcessorOptions) (specs : List AggSpec) :
    List (String × List Row) → Bool → Option PendingWin →
    List (String × Row) × Option PendingWin
  | [], _, st => ([], st)
  | g :: rest, chunkStart, st =>
    let p1 := procGroupRows opt specs g.1 g.2 chunkStart st
    let p2 := procGroups opt specs rest false p1.2
    (p1.1 ++ p2.1, p2.2)

/-- Feed a stream of chunks (each given by its tag groups), flushing the last
pending window when the input ends. -/
def procChunks (opt : ProcessorOptions) (specs : List AggSpec) :
    List (List (String × List Row)) → Option PendingWin → List (String × Row)
  | [], st =>
    match st with
    | some p => flushPending p
    | none => []
  | g :: rest, st =>
    let p1 := procGroups opt specs g true st
    p1.1 ++ procChunks opt specs rest p1.2

/-- The flat tagged output rows of the windowed streaming aggregation. -/
def streamAggRows (opt : ProcessorOptions) (specs : List AggSpec)
    (chunks : List Chunk) : List (String × Row) :=
  procChunks opt specs (chunks.map Chunk.groups) none

/-- Tag-group descriptors of a tagged output row list: each maximal run of
equal adjacent tags yields one tag with its starting row index. -/
def tagBoundaries : List (String × Row) → Nat → Option String →
    List String × List Nat
  | [], _, _ => ([], [])
  | g :: rest, idx, cur =>
    let tb := tagBoundaries rest (idx + 1) (some g.1)
    if cur = some g.1 then tb else (g.1 :: tb.1, idx :: tb.2)

/-- Assemble an output chunk from tagged aggregate rows. Every output row of a
windowed aggregation is its own interval, so the interval index enumerates
all rows. -/
def buildOutChunk (name : String) (ncols : Nat) (rows : List (String × Row)) :
    Chunk :=
  let tb := tagBoundaries rows 0 none
  { name := name
    tags := tb.1
    tagIndex := tb.2
    intervalIndex := List.range rows.length
    time := rows.map (fun p => p.2.time)
    columns := (List.range ncols).map (fun j =>
      { vals := rows.filterMap (fun p => p.2.vals.getD j none)
        nils := rows.map (fun p => (p.2.vals.getD j none).isSome) }) }

/-- Structural worker for `splitEvery`: `fuel` bounds the number of emitted
chunks (the list length suffices). -/
def splitEveryAux (size : Nat) : Nat → List α → List (List α)
  | 0, xs => if xs.isEmpty then [] else [xs]
  | fuel + 1, xs =>
    match xs with
    | [] => []
    | x :: rest =>
      if size = 0 then [x :: rest]
      else (x :: rest).take size :: splitEveryAux size fuel ((x :: rest).drop size)

/-- Split a row list into output chunks of at most `size` rows
(`ChunkSize`-bounded flushing; a non-positive size yields one chunk). -/
def splitEvery (size : Nat) (l : List α) : List (List α) :=
  splitEveryAux size l.length l

/-- Modelled from the spec: the Streaming Aggregate Transform for the
windowed reducer family, end to end — aggregate the chunk stream and emit
output chunks of at most `ChunkSize` rows. -/
def StreamAggregateTransform (opt : ProcessorOptions) (specs : List AggSpec)
    (chunks : List Chunk) : List Chunk :=
  let name := match chunks with
    | [] => ""
    | c :: _ => c.name
  (splitEvery opt.chunkSize.toNat (streamAggRows opt specs chunks)).map
    (buildOutChunk name specs.length)

/-! ## Fixtures of `TestStreamAggregateTransform_Multi_Count_Integer_Min_Float`
(agg_transform_test.go), schema `(value1 integer, value2 float)`. -/

/-- Fixture `buildSourceChunk1`. -/
def buildSourceChunk1 : Chunk :=
  { name := "mst"
    tags := ["name=aaa", "name=bbb", "name=ccc"]
    tagIndex := [0, 2, 4]
    intervalIndex := [0, 2, 3, 4]
    time := [1, 2, 3, 4, 5]
    columns :=
      [{ vals := [.i 1, .i 2, .i 3, .i 4, .i 5], nils := notNil 5 },
       { vals := [.f 1.1, .f 2.2, .f 3.3, .f 4.4, .f 5.5], nils := notNil 5 }] }

/-- Fixture `buildSourceChunk2`. -/
def buildSourceChunk2 : Chunk :=
  { name := "mst"
    tags := ["name=ccc", "name=ddd", "name=eee"]
    tagIndex := [0, 1, 3]
    intervalIndex := [0, 1, 2, 3]
    time := [6, 7, 8, 9, 10]
    columns :=
      [{ vals := [.i 6, .i 7, .i 8, .i 9, .i 10], nils := notNil 5 },
       { vals := [.f 6.6, .f 7.7, .f 8.8, .f 9.9, .f 10.1], nils := notNil 5 }] }

/-- Fixture `buildTargetChunk`: the expected output of
`count("value1"), min("value2")` over the two source chunks. -/
def buildTargetChunk : Chunk :=
  { name := "mst"
    tags := ["name=aaa", "name=bbb", "name=ccc", "name=ddd", "name=eee"]
    tagIndex := [0, 1, 3, 4, 6]
    intervalIndex := [0, 1, 2, 3, 4, 5, 6]
    time := [1, 3, 4, 6, 7, 8, 9]
    columns :=
      [{ vals := [.i 2, .i 1, .i 1, .i 2, .i 1, .i 1, .i 2], nils := notNil 7 },
       { vals := [.f 1.1, .f 3.3, .f 4.4, .f 5.5, .f 7.7, .f 8.8, .f 9.9],
         nils := notNil 7 }] }

/-- The same ten rows as `buildSourceChunk1` followed by `buildSourceChunk2`,
fed as one unsplit chunk: tag groups at rows 0,2,4,6,8, interval boundaries
refined at the 4ns windows. -/
def sourceChunkUnsplit : Chunk :=
  { name := "mst"
    tags := ["name=aaa", "name=bbb", "name=ccc", "name=ddd", "name=eee"]
    tagIndex := [0, 2, 4, 6, 8]
    intervalIndex := [0, 2, 3, 4, 6, 7, 8]
    time := [1, 2, 3, 4, 5, 6, 7, 8, 9, 10]
    columns :=
      [{ vals := [.i 1, .i 2, .i 3, .i 4, .i 5, .i 6, .i 7, .i 8, .i 9, .i 10]
         nils := notNil 10 },
       { vals := [.f 1.1, .f 2.2, .f 3.3, .f 4.4, .f 5.5, .f 6.6, .f 7.7,
                  .f 8.8, .f 9.9, .f 10.1]
         nils := notNil 10 }] }

/-- The output the transform produces on the unsplit chunk: identical to
`buildTargetChunk` except that the `name=ccc` window row carries time 5 (its
first-row time; with the split input the chunk-boundary continuation restamps
it to 6). -/
def targetChunkUnsplit : Chunk :=
  { buildTargetChunk with time := [1, 3, 4, 5, 7, 8, 9] }

/-- The `ProcessorOptions` of the count/min test: group by `name`, interval
4ns, ascending, chunk size 10. -/
def aggOptC1 : ProcessorOptions :=
  { dimensions := ["name"], interval := ⟨4, 0⟩, ordered := true,
    ascending := true, chunkSize := 10 }

/-- The aggregate bindings of the count/min test:
`count("value1"), min("value2")`. -/
def aggSpecsC1 : List AggSpec := [⟨.count, 0⟩, ⟨.minAgg, 1⟩]

/-! ## Fixtures of `TestStreamAggregateTransformNullForCount`
(agg_transform_test.go), schema `(v1 integer, v2 float, v3 string,
v4 boolean)`. -/

/-- Fixture `buildSrcNullChunks`, first chunk. -/
def srcNullChunk1 : Chunk :=
  { name := "mst"
    tags := ["tk=tv"]
    tagIndex := [0]
    intervalIndex := [0, 1, 2]
    time := [1, 2, 3]
    columns :=
      [{ vals := [.i 2], nils := [false, true, false] },
       { vals := [.f 1.1, .f 3.3], nils := [true, false, true] },
       { vals := [.s "a"], nils := [false, true, false] },
       { vals := [.b true, .b true], nils := [true, false, true] }] }

/-- Fixture `buildSrcNullChunks`, second chunk. -/
def srcNullChunk2 : Chunk :=
  { name := "mst"
    tags := ["tk=tv"]
    tagIndex := [0]
    intervalIndex := [0, 1, 2]
    time := [3, 4, 5]
    columns :=
      [{ vals := [.i 3, .i 5], nils := [true, false, true] },
       { vals := [.f 4.4], nils := [false, true, false] },
       { vals := [.s "c", .s "d"], nils := [true, false, true] },
       { vals := [.b true], nils := [false, true, false] }] }

/-- Fixture `buildDstNullChunksForCount`: expected output of the four
`count` aggregations — integer-typed counts whose null bitmap marks the
windows where the counted column had no non-null input. -/
def dstNullChunkForCount : Chunk :=
  { name := "mst"
    tags := ["tk=tv"]
    tagIndex := [0]
    intervalIndex := [0, 1, 2, 3, 4]
    time := [1, 2, 3, 4, 5]
    columns :=
      [{ vals := [.i 1, .i 1, .i 1], nils := [false, true, true, false, true] },
       { vals := [.i 1, .i 1, .i 1], nils := [true, false, true, true, false] },
       { vals := [.i 1, .i 1, .i 1], nils := [false, true, true, false, true] },
       { vals := [.i 1, .i 1, .i 1], nils := [true, false, true, true, false] }] }

/-- Options of the four-count null test: 1ns interval, chunk size 6. -/
def countNullOpt : ProcessorOptions :=
  { dimensions := ["country"], interval := ⟨1, 0⟩, chunkSize := 6 }

/-- Bindings of the four-count null test: `count` over each source column. -/
def countNullSpecs : List AggSpec :=
  [⟨.count, 0⟩, ⟨.count, 1⟩, ⟨.count, 2⟩, ⟨.count, 3⟩]

/-- Whether a field value is integer-typed. -/
def FieldVal.isInt : FieldVal → Bool
  | .i _ => true
  | _ => false

/-! ## Streaming aggregate transform, non-windowed reducer family

Modelled from the spec (§4.3 step 4): the reducers of the non-windowed
function family (derivative, difference, moving_average, rate, irate,
cumulative_sum) operate over the whole series, ignoring interval windows:
their state carries across window and chunk boundaries within one tag group
and resets at tag-group boundaries. The family is modelled generically as a
series machine; `difference` and `rate` are concrete instances, calibrated
against the source test fixtures. -/

/-- A reducer of the non-windowed family over carry state `σ`: `step` feeds
one row and may emit output rows, `final` emits rows when the series (tag
group) ends. -/
structure SeriesAgg (σ : Type) where
  init : σ
  step : σ → Row → σ × List Row
  final : σ → List Row

/-- Feed a run of rows of one series through the machine. -/
def saRunRows (M : SeriesAgg σ) : List Row → σ → σ × List Row
  | [], st => (st, [])
  | r :: rest, st =>
    let p1 := M.step st r
    let p2 := saRunRows M rest p1.1
    (p2.1, p1.2 ++ p2.2)

/-- Feed the remaining tag-group segments, with `tag`/`st` the series and
carry state currently open: a segment with the same tag continues the open
series (state carried across the chunk boundary); a different tag closes the
open series (`final`) and resets the state. -/
def saRunSegs (M : SeriesAgg σ) :
    List (String × List Row) → String → σ → List (String × Row)
  | [], tag, st => (M.final st).map (fun r => (tag, r))
  | seg :: rest, tag, st =>
    if seg.1 = tag then
      let p := saRunRows M seg.2 st
      (p.2.map (fun r => (tag, r))) ++ saRunSegs M rest tag p.1
    else
      ((M.final st).map (fun r => (tag, r))) ++
        (let p := saRunRows M seg.2 M.init
         (p.2.map (fun r => (seg.1, r))) ++ saRunSegs M rest seg.1 p.1)

/-- Feed a stream of tag-group segments from the start. -/
def saRunTop (M : SeriesAgg σ) : List (String × List Row) → List (String × Row)
  | [] => []
  | seg :: rest =>
    let p := saRunRows M seg.2 M.init
    (p.2.map (fun r => (seg.1, r))) ++ saRunSegs M rest seg.1 p.1

/-- The non-windowed streaming aggregation over a chunk stream: the chunks'
tag-group segments are processed in order, so state carries across chunk
boundaries within a tag group and resets at tag-group boundaries. -/
def NonWindowedTransform (M : SeriesAgg σ) (chunks : List Chunk) :
    List (String × Row) :=
  saRunTop M (chunks.map Chunk.groups).flatten

/-- Merge adjacent segments of the same tag (the canonical series stream a
chunking denotes). -/
def regroup : List (String × List Row) → List (String × List Row)
  | [] => []
  | seg :: rest =>
    match regroup rest with
    | [] => [seg]
    | seg2 :: rest2 =>
      if seg.1 = seg2.1 then (seg.1, seg.2 ++ seg2.2) :: rest2
      else seg :: seg2 :: rest2

/-- Numeric subtraction of same-typed field values. -/
def fvSub : FieldVal → FieldVal → Option FieldVal
  | .f a, .f b => some (.f (a - b))
  | .i a, .i b => some (.i (a - b))
  | _, _ => none

/-- Modelled from the spec: the `difference` reducer over `ncols` columns.
State: the last non-null value per column. Each row emits, per column, the
difference to the previous non-null value when both exist; an output row is
emitted when at least one column emits (calibrated against
`buildDstChunkDifference`/`buildDstChunkDifferenceNullWindow`). -/
def diffAgg (ncols : Nat) : SeriesAgg (List (Option FieldVal)) :=
  { init := List.replicate ncols none
    step := fun st r =>
      let outs := (List.range ncols).map (fun j =>
        match st.getD j none, r.vals.getD j none with
        | some prev, some cur => fvSub cur prev
        | _, _ => none)
      let st2 := (List.range ncols).map (fun j =>
        match r.vals.getD j none with
        | some cur => some cur
        | none => st.getD j none)
      (st2, if outs.all Option.isNone then [] else [{ time := r.time, vals := outs }])
    final := fun _ => [] }

/-- Per-column carry state of the `rate` reducer: the earliest- and
latest-timestamped non-null points of the series so far. -/
structure RateCol where
  first : Option (Rat × Int)
  last : Option (Rat × Int)
deriving DecidableEq

/-- Numeric field values as rationals. -/
def fvToRat : FieldVal → Option Rat
  | .i n => some (n : Rat)
  | .f q => some q
  | _ => none

/-- Fold one optional value at timestamp `t` into a rate column state. -/
def rateColStep (c : RateCol) (t : Int) (v : Option FieldVal) : RateCol :=
  match v.bind fvToRat with
  | none => c
  | some q =>
    { first := match c.first with
        | none => some (q, t)
        | some p => if t < p.2 then some (q, t) else some p
      last := match c.last with
        | none => some (q, t)
        | some p => if p.2 < t then some (q, t) else some p }

/-- Finalize a rate column: the value delta over the time delta of the
earliest and latest points, scaled by the interval duration; null with fewer
than two non-null points. -/
def rateColFinal (dur : Int) (c : RateCol) : Option FieldVal :=
  match c.first, c.last with
  | some p1, some p2 =>
    if p1.2 = p2.2 then none
    else some (.f ((p2.1 - p1.1) / ((p2.2 : Rat) - (p1.2 : Rat)) * (dur : Rat)))
  | _, _ => none

/-- Carry state of the `rate` reducer: per-column point pairs plus the time
of the last row seen (the emitted row's timestamp). -/
structure RateState where
  cols : List RateCol
  lastTime : Option Int
deriving DecidableEq

/-- Modelled from the spec: the `rate` reducer over `ncols` columns — at
series end it emits one row, timestamped at the last row fed, whose values
are the per-column rates (calibrated against
`buildDstChunkRateInnerChunkSizeTo1`: times 10,1,6,4 give output time 4 and
rate (102 − 20.5) / (10 − 1) · 20 for the age column). -/
def rateAgg (dur : Int) (ncols : Nat) : SeriesAgg RateState :=
  { init := { cols := List.replicate ncols ⟨none, none⟩, lastTime := none }
    step := fun st r =>
      ({ cols := (List.range ncols).map (fun j =>
           rateColStep (st.cols.getD j ⟨none, none⟩) r.time (r.vals.getD j none))
         lastTime := some r.time }, [])
    final := fun st =>
      match st.lastTime with
      | none => []
      | some t =>
        let vals := st.cols.map (rateColFinal dur)
        if vals.all Option.isNone then [] else [{ time := t, vals := vals }] }

/-! ## Fixtures of the difference null-window and rate chunk-size-1 tests
(agg_transform_test.go), schema `(age float, height integer)`. -/

/-- Fixture `buildComInChunkNullWindow`, first chunk. -/
def comNullWindowChunk1 : Chunk :=
  { name := "mst"
    tags := ["country=", "country=american", "country=canada", "country=china"]
    tagIndex := [0, 1, 3, 5]
    intervalIndex := [0, 1, 3, 5]
    time := [10, 1, 6, 4, 9, 0]
    columns :=
      [{ vals := [.f 102, .f 35, .f 60.8, .f 12.3]
         nils := [true, false, false, true, true, true] },
       { vals := [.i 191, .i 80, .i 153, .i 70]
         nils := [true, true, true, false, false, true] }] }

/-- Fixture `buildComInChunkNullWindow`, second chunk. -/
def comNullWindowChunk2 : Chunk :=
  { name := "mst"
    tags := ["country=china", "country=germany", "country=japan"]
    tagIndex := [0, 2, 4]
    intervalIndex := [0, 2, 4]
    time := [5, 11, 2, 7, 3, 8]
    columns :=
      [{ vals := [.f 48.8, .f 123, .f 3.4, .f 28.3, .f 30]
         nils := [true, true, true, true, true, false] },
       { vals := [.i 149, .i 203, .i 90, .i 121, .i 179]
         nils := [true, true, true, false, true, true] }] }

/-- Fixture `buildComInChunkInnerChunkSizeTo1`: four one-row chunks of the
single series `country=american`. -/
def comSize1Chunks : List Chunk :=
  [{ name := "mst", tags := ["country=american"], tagIndex := [0]
     intervalIndex := [0], time := [10]
     columns := [{ vals := [.f 102], nils := [true] },
                 { vals := [.i 191], nils := [true] }] },
   { name := "mst", tags := ["country=american"], tagIndex := [0]
     intervalIndex := [0], time := [1]
     columns := [{ vals := [.f 20.5], nils := [true] },
                 { vals := [], nils := [false] }] },
   { name := "mst", tags := ["country=american"], tagIndex := [0]
     intervalIndex := [0], time := [6]
     columns := [{ vals := [], nils := [false] },
                 { vals := [.i 153], nils := [true] }] },
   { name := "mst", tags := ["country=american"], tagIndex := [0]
     intervalIndex := [0], time := [4]
     columns := [{ vals := [.f 35], nils := [true] },
                 { vals := [.i 138], nils := [true] }] }]

/-- The same four rows as `comSize1Chunks`, fed as one chunk. -/
def comSize1Combined : Chunk :=
  { name := "mst"
    tags := ["country=american"]
    tagIndex := [0]
    intervalIndex := [0]
    time := [10, 1, 6, 4]
    columns :=
      [{ vals := [.f 102, .f 20.5, .f 35], nils := [true, true, false, true] },
       { vals := [.i 191, .i 153, .i 138], nils := [true, false, true, true] }] }

/-! ## Fixtures for the amended null-window behaviour. -/

/-- A three-row series whose middle window (time 2, 1ns interval) is null in
every aggregated column. -/
def nullMidChunk : Chunk :=
  { name := "mst"
    tags := ["tk=tv"]
    tagIndex := [0]
    intervalIndex := [0, 1, 2]
    time := [1, 2, 3]
    columns :=
      [{ vals := [.i 1, .i 3], nils := [true, false, true] },
       { vals := [.f 1.5, .f 3.5], nils := [true, false, true] }] }

/-- The expected output on `nullMidChunk`: the all-null time-2 window is
skipped. -/
def nullMidExpected : Chunk :=
  { name := "mst"
    tags := ["tk=tv"]
    tagIndex := [0]
    intervalIndex := [0, 1]
    time := [1, 3]
    columns :=
      [{ vals := [.i 1, .i 1], nils := [true, true] },
       { vals := [.f 1.5, .f 3.5], nils := [true, true] }] }

/-- Options for the null-middle-window check: 1ns interval. -/
def nullMidOpt : ProcessorOptions :=
  { dimensions := ["tk"], interval := ⟨1, 0⟩, chunkSize := 6 }

/-- Bindings for the null-middle-window check: `count(v1), min(v2)`. -/
def nullMidSpecs : List AggSpec := [⟨.count, 0⟩, ⟨.minAgg, 1⟩]

/-- A single-row, fully non-null series (the `country=` group of the
null-window fixture on its own). -/
def singlePointChunk : Chunk :=
  { name := "mst"
    tags := ["country="]
    tagIndex := [0]
    intervalIndex := [0]
    time := [10]
    columns :=
      [{ vals := [.f 102], nils := [true] },
       { vals := [.i 191], nils := [true] }] }

/-! ## Chunk structural invariant (spec §3 / §8). -/

/-- A strictly increasing index list. -/
def strictInc : List Nat → Bool
  | [] => true
  | [_] => true
  | a :: b :: rest => a < b && strictInc (b :: rest)

/-- Whether `l` is a (not necessarily contiguous) subsequence of `m`. -/
def isSubseq : List Nat → List Nat → Bool
  | [], _ => true
  | _ :: _, [] => false
  | a :: as, b :: bs =>
    if a = b then isSubseq as bs else isSubseq (a :: as) bs

/-- The chunk structural invariant: `len(tagIndex) ≤ len(intervalIndex) ≤
RowNums`, both index sequences strictly increasing and starting at 0, and the
tag boundaries a subsequence of the interval boundaries. -/
def chunkInvariant (c : Chunk) : Bool :=
  decide (c.tagIndex.length ≤ c.intervalIndex.length) &&
  decide (c.intervalIndex.length ≤ c.RowNums) &&
  strictInc c.tagIndex &&
  strictInc c.intervalIndex &&
  c.tagIndex.head? == some 0 &&
  c.intervalIndex.head? == some 0 &&
  isSubseq c.tagIndex c.intervalIndex

/-! ## Cursor LIMIT/OFFSET (spec §4.4). -/

/-- Modelled from the spec: the per-series LIMIT/OFFSET rule of the cursor
hierarchy (tag-set cursor; `engine/index/tsi` and the cursor implementations
are not among the sources). Given the `R` rows a series emits, in the
requested time order, the cursor returns the rows at logical positions
`[offset, offset + limit)`. -/
def cursorSelect (rows : List Row) (offset limit : Nat) : List Row :=
  (rows.drop offset).take limit

/-- Fixed options exhibiting the window-containment failure at the maximum
sentinel timestamp: interval 4ns, no offset, unconstrained time range. -/
def windowCexOpt : ProcessorOptions :=
  { startTime := MinTime, endTime := MaxTime, interval := ⟨4, 0⟩ }

/-- Options for the C5 witness: interval 4ns, no offset. -/
def windowWitnessOpt : ProcessorOptions := { interval := ⟨4, 0⟩ }

/-- Substatement for the C6 witness. -/
def c6stmt : SelectStatement :=
  { condTimeMin := some 10, condTimeMax := some 100, groupByInterval := 5,
    slimit := 3, soffset := 1 }

/-- Parent options for the C6 witness. -/
def c6parent : ProcessorOptions :=
  { startTime := 20, endTime := 80, slimit := 7, soffset := 2, ascending := true }

/-- Statement for the C8 witness: negative group-by interval, no time bounds. -/
def c8stmt : SelectStatement := { groupByInterval := -3 }

/-- A four-row time-ordered series for the C4 witness. -/
def cursorRowsW : List Row :=
  [{ time := 1, vals := [] }, { time := 2, vals := [] },
   { time := 3, vals := [] }, { time := 4, vals := [] }]

theorem wrap64_eq_self {x : Int} (h1 : -(2 ^ 63) ≤ x) (h2 : x < 2 ^ 63) :
    wrap64 x = x := by
  unfold wrap64
  omega

theorem neg_tmod_comm (a b : Int) : Int.tmod (-a) b = -(Int.tmod a b) := by
  rw [Int.tmod_def, Int.tmod_def, Int.neg_tdiv]
  ring

theorem tmod_pos_lower (a : Int) {b : Int} (hb : 0 < b) : -b < Int.tmod a b := by
  have h := Int.tmod_lt_of_pos (-a) hb
  rw [neg_tmod_comm] at h
  omega

theorem tmod_dvd_sub (a b : Int) : b ∣ (a - Int.tmod a b) := by
  refine ⟨a.tdiv b, ?_⟩
  have h := Int.tdiv_add_tmod a b
  omega

theorem window_spec (opt : ProcessorOptions) (t : Int)
    (hD : 0 < opt.interval.duration)
    (hoff1 : -opt.interval.duration < opt.interval.offset)
    (hoff2 : opt.interval.offset < opt.interval.duration)
    (hlo : MinTime + 2 * opt.interval.duration ≤ t)
    (hhi : t ≤ MaxTime - 2 * opt.interval.duration) :
    ∃ dt : Int, 0 ≤ dt ∧ dt < opt.interval.duration ∧
      opt.interval.duration ∣ (t - opt.interval.offset - dt) ∧
      opt.Window t = (t - dt, t + (opt.interval.duration - dt)) := by
  have hM1 : MinTime = -(2 ^ 63) + 1 := rfl
  have hM2 : MaxTime = 2 ^ 63 - 2 := rfl
  have hIsZero : opt.interval.IsZero = false := by
    have h : opt.interval.duration ≠ 0 := by omega
    simp [Interval.IsZero, h]
  have hdt0_lt : Int.tmod (t - opt.interval.offset) opt.interval.duration <
      opt.interval.duration := Int.tmod_lt_of_pos _ hD
  have hdt0_gt : -opt.interval.duration <
      Int.tmod (t - opt.interval.offset) opt.interval.duration :=
    tmod_pos_lower _ hD
  have hdvd0 : opt.interval.duration ∣
      (t - opt.interval.offset - Int.tmod (t - opt.interval.offset) opt.interval.duration) :=
    tmod_dvd_sub _ _
  have hw1 : wrap64 (t - opt.interval.offset) = t - opt.interval.offset :=
    wrap64_eq_self (by omega) (by omega)
  refine ⟨if Int.tmod (t - opt.interval.offset) opt.interval.duration < 0 then
      Int.tmod (t - opt.interval.offset) opt.interval.duration + opt.interval.duration
    else Int.tmod (t - opt.interval.offset) opt.interval.duration,
    ?_, ?_, ?_, ?_⟩
  · split <;> omega
  · split <;> omega
  · split
    · have h : t - opt.interval.offset -
          (Int.tmod (t - opt.interval.offset) opt.interval.duration +
            opt.interval.duration) =
          (t - opt.interval.offset -
            Int.tmod (t - opt.interval.offset) opt.interval.duration) -
          opt.interval.duration := by ring
      rw [h]
      exact dvd_sub hdvd0 (dvd_refl _)
    · exact hdvd0
  · unfold ProcessorOptions.Window
    rw [hIsZero]
    simp only [Bool.false_eq_true, if_false, hw1]
    by_cases hneg : Int.tmod (t - opt.interval.offset) opt.interval.duration < 0
    · rw [if_pos hneg, if_pos hneg]
      rw [wrap64_eq_self (x := Int.tmod (t - opt.interval.offset) opt.interval.duration +
        opt.interval.duration) (by omega) (by omega)]
      rw [wrap64_eq_self (x := MinTime +
        (Int.tmod (t - opt.interval.offset) opt.interval.duration +
          opt.interval.duration)) (by omega) (by omega)]
      rw [if_neg (by omega)]
      rw [wrap64_eq_self (x := t - opt.interval.offset -
        (Int.tmod (t - opt.interval.offset) opt.interval.duration +
          opt.interval.duration)) (by omega) (by omega)]
      rw [wrap64_eq_self (x := t - opt.interval.offset -
        (Int.tmod (t - opt.interval.offset) opt.interval.duration +
          opt.interval.duration) + opt.interval.offset) (by omega) (by omega)]
      rw [wrap64_eq_self (x := opt.interval.duration -
        (Int.tmod (t - opt.interval.offset) opt.interval.duration +
          opt.interval.duration)) (by omega) (by omega)]
      rw [wrap64_eq_self (x := MaxTime - (opt.interval.duration -
        (Int.tmod (t - opt.interval.offset) opt.interval.duration +
          opt.interval.duration))) (by omega) (by omega)]
      rw [if_neg (by omega)]
      rw [wrap64_eq_self (x := t - opt.interval.offset + (opt.interval.duration -
        (Int.tmod (t - opt.interval.offset) opt.interval.duration +
          opt.interval.duration))) (by omega) (by omega)]
      rw [wrap64_eq_self (x := t - opt.interval.offset + (opt.interval.duration -
        (Int.tmod (t - opt.interval.offset) opt.interval.duration +
          opt.interval.duration)) + opt.interval.offset) (by omega) (by omega)]
      simp only [Prod.mk.injEq]
      omega
    · rw [if_neg hneg, if_neg hneg]
      rw [wrap64_eq_self (x := MinTime +
        Int.tmod (t - opt.interval.offset) opt.interval.duration) (by omega) (by omega)]
      rw [if_neg (by omega)]
      rw [wrap64_eq_self (x := t - opt.interval.offset -
        Int.tmod (t - opt.interval.offset) opt.interval.duration) (by omega) (by omega)]
      rw [wrap64_eq_self (x := t - opt.interval.offset -
        Int.tmod (t - opt.interval.offset) opt.interval.duration +
        opt.interval.offset) (by omega) (by omega)]
      rw [wrap64_eq_self (x := opt.interval.duration -
        Int.tmod (t - opt.interval.offset) opt.interval.duration) (by omega) (by omega)]
      rw [wrap64_eq_self (x := MaxTime - (opt.interval.duration -
        Int.tmod (t - opt.interval.offset) opt.interval.duration)) (by omega) (by omega)]
      rw [if_neg (by omega)]
      rw [wrap64_eq_self (x := t - opt.interval.offset + (opt.interval.duration -
        Int.tmod (t - opt.interval.offset) opt.interval.duration)) (by omega) (by omega)]
      rw [wrap64_eq_self (x := t - opt.interval.offset + (opt.interval.duration -
        Int.tmod (t - opt.interval.offset) opt.interval.duration) +
        opt.interval.offset) (by omega) (by omega)]
      simp only [Prod.mk.injEq]
      omega

/-- C5 counterexample: with a positive interval, no timezone location and the
default (sentinel) time range, `MaxTime` lies between `StartTime` and
`EndTime`, yet `Window MaxTime` returns an interval whose end equals
`MaxTime`, so the half-open window does not contain the timestamp. -/
theorem C5_counterexample :
    0 < windowCexOpt.interval.duration ∧
    windowCexOpt.startTime ≤ MaxTime ∧ MaxTime ≤ windowCexOpt.endTime ∧
    ¬((windowCexOpt.Window MaxTime).1 ≤ MaxTime ∧
      MaxTime < (windowCexOpt.Window MaxTime).2) := by
  refine ⟨by decide, by decide, by decide, ?_⟩
  intro h
  have h2 : (windowCexOpt.Window MaxTime).2 = MaxTime := by decide
  omega

/-- C5 (amended): when `Interval.Duration > 0`, no timezone location is
configured, the interval offset is smaller in magnitude than the duration,
and the timestamps stay `2·Duration` away from the sentinel extremes,
`ProcessorOptions.Window t` is a half-open interval `[start, end)` with
`start ≤ t < end`, and a second timestamp `u` computes the same `(start, end)`
pair exactly when `u` falls inside `t`'s window. At the sentinel extremes the
window may exclude its timestamp (see the counterexample). -/
theorem C5_window_contains (opt : ProcessorOptions) (t u : Int)
    (hD : 0 < opt.interval.duration)
    (hoff1 : -opt.interval.duration < opt.interval.offset)
    (hoff2 : opt.interval.offset < opt.interval.duration)
    (hlo : MinTime + 2 * opt.interval.duration ≤ t)
    (hhi : t ≤ MaxTime - 2 * opt.interval.duration)
    (hulo : MinTime + 2 * opt.interval.duration ≤ u)
    (huhi : u ≤ MaxTime - 2 * opt.interval.duration) :
    (opt.Window t).1 ≤ t ∧ t < (opt.Window t).2 ∧
    (opt.Window u = opt.Window t ↔
      ((opt.Window t).1 ≤ u ∧ u < (opt.Window t).2)) := by
  obtain ⟨dt, hdt0, hdtD, hdvd, hw⟩ := window_spec opt t hD hoff1 hoff2 hlo hhi
  obtain ⟨du, hdu0, hduD, hdvdu, hwu⟩ := window_spec opt u hD hoff1 hoff2 hulo huhi
  rw [hw, hwu]
  refine ⟨by omega, by omega, ?_⟩
  obtain ⟨k, hk⟩ := hdvd
  obtain ⟨j, hj⟩ := hdvdu
  constructor
  · intro h
    simp only [Prod.mk.injEq] at h
    omega
  · intro h
    have hdiff : (u - du) - (t - dt) = opt.interval.duration * (j - k) := by
      rw [Int.mul_sub]
      omega
    have hbound1 : -opt.interval.duration < opt.interval.duration * (j - k) := by
      rw [← hdiff]; omega
    have hbound2 : opt.interval.duration * (j - k) < opt.interval.duration := by
      rw [← hdiff]; omega
    have hjk : j - k = 0 := by
      rcases lt_trichotomy (j - k) 0 with hlt | heq | hgt
      · exfalso
        have hm : opt.interval.duration * (j - k) ≤ opt.interval.duration * (-1) :=
          mul_le_mul_of_nonneg_left (by omega) (by omega)
        have hm2 : opt.interval.duration * (-1) = -opt.interval.duration := by ring
        omega
      · exact heq
      · exfalso
        have hm : opt.interval.duration * 1 ≤ opt.interval.duration * (j - k) :=
          mul_le_mul_of_nonneg_left (by omega) (by omega)
        have hm2 : opt.interval.duration * 1 = opt.interval.duration := by ring
        omega
    rw [hjk, Int.mul_zero] at hdiff
    simp only [Prod.mk.injEq]
    omega

/-- Witness for the amended C5 at interval 4ns, `t = 5`, `u = 6`. -/
theorem C5_window_contains_witness :
    (windowWitnessOpt.Window 5).1 ≤ 5 ∧ 5 < (windowWitnessOpt.Window 5).2 ∧
    (windowWitnessOpt.Window 6 = windowWitnessOpt.Window 5 ↔
      ((windowWitnessOpt.Window 5).1 ≤ 6 ∧ 6 < (windowWitnessOpt.Window 5).2)) :=
  C5_window_contains windowWitnessOpt 5 6 (by decide) (by decide) (by decide)
    (by decide) (by decide) (by decide) (by decide)

/-- C6: the child options of a subquery never widen the parent's time range,
compose SLIMIT/SOFFSET additively, and inherit the parent's ordering. The
hypothesis reflects that the `"now"` context value is a wall-clock
`UnixNano`, which never exceeds the maximum sentinel timestamp. -/
theorem C6_substatement_bounds (ctxNow : Option Int) (stmt : SelectStatement)
    (opt : ProcessorOptions)
    (hnow : ∀ n, ctxNow = some n → n ≤ MaxTime) :
    opt.startTime ≤ (newProcessorOptionsSubstatement ctxNow stmt opt).startTime ∧
    (newProcessorOptionsSubstatement ctxNow stmt opt).endTime ≤ opt.endTime ∧
    (newProcessorOptionsSubstatement ctxNow stmt opt).slimit =
      stmt.slimit + opt.slimit ∧
    (newProcessorOptionsSubstatement ctxNow stmt opt).soffset =
      stmt.soffset + opt.soffset ∧
    (newProcessorOptionsSubstatement ctxNow stmt opt).ascending = opt.ascending := by
  refine ⟨?_, ?_, ?_, ?_, ?_⟩
  · rcases hmin : stmt.condTimeMin with _ | m <;>
      simp only [newProcessorOptionsSubstatement, NewProcessorOptionsStmt, hmin] <;>
      repeat' split
    all_goals omega
  · rcases hmax : stmt.condTimeMax with _ | m <;>
      rcases hcn : ctxNow with _ | n <;>
      simp only [newProcessorOptionsSubstatement, NewProcessorOptionsStmt, hmax,
        hcn, Bool.and_eq_true, beq_iff_eq] <;>
      repeat' split
    all_goals try omega
    all_goals simp_all
    all_goals omega
  · simp only [newProcessorOptionsSubstatement, NewProcessorOptionsStmt]
  · simp only [newProcessorOptionsSubstatement, NewProcessorOptionsStmt]
  · simp only [newProcessorOptionsSubstatement, NewProcessorOptionsStmt]

/-- Witness for C6: concrete substatement and parent options. -/
theorem C6_substatement_bounds_witness :
    c6parent.startTime ≤
      (newProcessorOptionsSubstatement (some 1700000000) c6stmt c6parent).startTime ∧
    (newProcessorOptionsSubstatement (some 1700000000) c6stmt c6parent).endTime ≤
      c6parent.endTime ∧
    (newProcessorOptionsSubstatement (some 1700000000) c6stmt c6parent).slimit =
      c6stmt.slimit + c6parent.slimit ∧
    (newProcessorOptionsSubstatement (some 1700000000) c6stmt c6parent).soffset =
      c6stmt.soffset + c6parent.soffset ∧
    (newProcessorOptionsSubstatement (some 1700000000) c6stmt c6parent).ascending =
      c6parent.ascending :=
  C6_substatement_bounds (some 1700000000) c6stmt c6parent
    (by intro n h; cases h; decide)

/-- C7: a NULL fill option is replaced by NONE fill exactly when the
statement has a write target (stmt-level rule), or — for the derived
subquery options — when the substatement is not a raw query; otherwise the
statement's fill option is preserved. -/
theorem C7_fill_rules (stmt : SelectStatement) (sopt : SelectOptions)
    (ctxNow : Option Int) (opt : ProcessorOptions) :
    (NewProcessorOptionsStmt stmt sopt).fill =
      (if stmt.fill = .nullFill ∧ stmt.hasTarget = true then .noFill
       else stmt.fill) ∧
    (newProcessorOptionsSubstatement ctxNow stmt opt).fill =
      (if stmt.fill = .nullFill ∧ (stmt.hasTarget = true ∨ stmt.isRawQuery = false)
       then .noFill else stmt.fill) := by
  simp only [newProcessorOptionsSubstatement, NewProcessorOptionsStmt]
  repeat' split
  all_goals simp_all

/-- C8: a negative GROUP BY interval yields a zero interval (duration 0 and
no offset), and an unconstrained time bound defaults to the corresponding
global sentinel timestamp. The builder is a pure function of the statement
and options by construction. -/
theorem C8_stmt_defaults (stmt : SelectStatement) (sopt : SelectOptions) :
    (stmt.groupByInterval < 0 →
      (NewProcessorOptionsStmt stmt sopt).interval = ⟨0, 0⟩) ∧
    (stmt.condTimeMin = none →
      (NewProcessorOptionsStmt stmt sopt).startTime = MinTime) ∧
    (stmt.condTimeMax = none →
      (NewProcessorOptionsStmt stmt sopt).endTime = MaxTime) := by
  simp only [NewProcessorOptionsStmt]
  refine ⟨?_, ?_, ?_⟩
  · intro h
    simp only [Interval.mk.injEq]
    constructor
    · split <;> omega
    · split <;> omega
  · intro h
    simp [h]
  · intro h
    simp [h]

/-- Witness for C8 at a statement with interval `-3` and no time bounds. -/
theorem C8_stmt_defaults_witness :
    (NewProcessorOptionsStmt c8stmt {}).interval = ⟨0, 0⟩ ∧
    (NewProcessorOptionsStmt c8stmt {}).startTime = MinTime ∧
    (NewProcessorOptionsStmt c8stmt {}).endTime = MaxTime :=
  ⟨(C8_stmt_defaults c8stmt {}).1 (by decide),
   (C8_stmt_defaults c8stmt {}).2.1 rfl,
   (C8_stmt_defaults c8stmt {}).2.2 rfl⟩


set_option maxRecDepth 100000 in
/-- C1 counterexample: on the count/min fixture the transform's output over
the two split source chunks is exactly the expected 7-row target chunk, but
feeding the same ten rows as one unsplit chunk does not reproduce that
output — the `name=ccc` window row is timestamped 5 instead of 6 — refuting
the claimed chunk-boundary invariance of the full output. -/
theorem C1_counterexample :
    StreamAggregateTransform aggOptC1 aggSpecsC1
      [buildSourceChunk1, buildSourceChunk2] = [buildTargetChunk] ∧
    StreamAggregateTransform aggOptC1 aggSpecsC1 [sourceChunkUnsplit] ≠
      [buildTargetChunk] := by
  with_unfolding_all decide

set_option maxRecDepth 100000 in
/-- C1 (amended): the split fixture produces exactly the 7-row target chunk
(times [1,3,4,6,7,8,9], counts [2,1,1,2,1,1,2], mins
[1.1,3.3,4.4,5.5,7.7,8.8,9.9], tag boundaries aaa:0 bbb:1 ccc:3 ddd:4
eee:6); feeding the same ten rows as one unsplit chunk produces the same
chunk except that the `name=ccc` window row carries its first-row time 5
instead of 6: the aggregate values, null bitmaps and tag boundaries are
chunk-boundary invariant, while the emitted timestamp of a window that spans
a chunk boundary is restamped to the first row of the continuing segment. -/
theorem C1_agg_fixture :
    StreamAggregateTransform aggOptC1 aggSpecsC1
      [buildSourceChunk1, buildSourceChunk2] = [buildTargetChunk] ∧
    StreamAggregateTransform aggOptC1 aggSpecsC1 [sourceChunkUnsplit] =
      [targetChunkUnsplit] := by
  with_unfolding_all decide

set_option maxRecDepth 100000 in
/-- C10: in the four-column count aggregation over the null fixture, the
output equals the expected chunk — windows all-null in one counted column
but non-null in another still emit a row, with the count for the all-null
column marked absent in the null bitmap rather than emitted as integer 0
(e.g. the time-1 row has a null `count(v1)`), and every count output value
is integer-typed although the source columns are integer, float, string and
boolean. -/
theorem C10_count_null_columns :
    StreamAggregateTransform countNullOpt countNullSpecs
      [srcNullChunk1, srcNullChunk2] = [dstNullChunkForCount] ∧
    dstNullChunkForCount.columns.all
      (fun col => col.vals.all FieldVal.isInt) = true ∧
    dstNullChunkForCount.time.getD 0 0 = 1 ∧
    (dstNullChunkForCount.columns.getD 0 ⟨[], []⟩).nils.getD 0 true = false := by
  with_unfolding_all decide

set_option maxRecDepth 100000 in
/-- C2 counterexample: under `difference`, the single-row `country=` window
of the null-window fixture has non-null values in both aggregated columns
yet the transform emits no output row for it — refuting "a window with at
least one non-null value in at least one aggregated column produces an
output row". The remaining output matches the source fixture: times and
tags, the integer difference column exactly, and the float column's null
bitmap. -/
theorem C2_counterexample :
    (comNullWindowChunk1.groups.getD 0 ("", [])).1 = "country=" ∧
    (comNullWindowChunk1.groups.getD 0 ("", [])).2 =
      [{ time := 10, vals := [some (.f 102), some (.i 191)] }] ∧
    ((NonWindowedTransform (diffAgg 2)
        [comNullWindowChunk1, comNullWindowChunk2]).map Prod.fst).contains
      "country=" = false ∧
    (NonWindowedTransform (diffAgg 2)
        [comNullWindowChunk1, comNullWindowChunk2]).map
        (fun p => (p.1, p.2.time)) =
      [("country=american", 6), ("country=canada", 9), ("country=china", 5),
       ("country=china", 11), ("country=germany", 7), ("country=japan", 8)] ∧
    (NonWindowedTransform (diffAgg 2)
        [comNullWindowChunk1, comNullWindowChunk2]).map
        (fun p => p.2.vals.getD 1 none) =
      [some (.i 73), none, some (.i 79), some (.i 54), none, some (.i 58)] ∧
    (NonWindowedTransform (diffAgg 2)
        [comNullWindowChunk1, comNullWindowChunk2]).map
        (fun p => (p.2.vals.getD 0 none).isSome) =
      [false, true, true, true, true, false] := by
  with_unfolding_all decide


theorem cnt_fold_none (vs : List (Option FieldVal)) :
    ∀ n : Nat, aggFinal (vs.foldl (aggStep .count) (.cnt n)) = none ↔
      (n = 0 ∧ ∀ v ∈ vs, v = none) := by
  induction vs with
  | nil =>
    intro n
    cases n <;> simp [aggFinal, List.foldl_nil]
  | cons v rest ih =>
    intro n
    cases v with
    | none =>
      have hstep : aggStep .count (.cnt n) none = .cnt n := rfl
      simp only [List.foldl_cons, hstep, ih n]
      simp
    | some x =>
      have hstep : aggStep .count (.cnt n) (some x) = .cnt (n + 1) := rfl
      simp only [List.foldl_cons, hstep, ih (n + 1)]
      simp

theorem sel_fold_none_min (vs : List (Option FieldVal)) :
    ∀ w : Option FieldVal,
      aggFinal (vs.foldl (aggStep .minAgg) (.sel w)) = none ↔
        (w = none ∧ ∀ v ∈ vs, v = none) := by
  induction vs with
  | nil =>
    intro w
    simp [aggFinal]
  | cons v rest ih =>
    intro w
    cases v with
    | none =>
      have hstep : aggStep .minAgg (.sel w) none = .sel w := rfl
      simp only [List.foldl_cons, hstep, ih w]
      simp
    | some x =>
      cases w with
      | none =>
        have hstep : aggStep .minAgg (.sel none) (some x) = .sel (some x) := rfl
        simp only [List.foldl_cons, hstep, ih (some x)]
        simp
      | some u =>
        have hstep : aggStep .minAgg (.sel (some u)) (some x) =
            .sel (some (if fvLt x u then x else u)) := rfl
        simp only [List.foldl_cons, hstep,
          ih (some (if fvLt x u then x else u))]
        simp

theorem sel_fold_none_max (vs : List (Option FieldVal)) :
    ∀ w : Option FieldVal,
      aggFinal (vs.foldl (aggStep .maxAgg) (.sel w)) = none ↔
        (w = none ∧ ∀ v ∈ vs, v = none) := by
  induction vs with
  | nil =>
    intro w
    simp [aggFinal]
  | cons v rest ih =>
    intro w
    cases v with
    | none =>
      have hstep : aggStep .maxAgg (.sel w) none = .sel w := rfl
      simp only [List.foldl_cons, hstep, ih w]
      simp
    | some x =>
      cases w with
      | none =>
        have hstep : aggStep .maxAgg (.sel none) (some x) = .sel (some x) := rfl
        simp only [List.foldl_cons, hstep, ih (some x)]
        simp
      | some u =>
        have hstep : aggStep .maxAgg (.sel (some u)) (some x) =
            .sel (some (if fvLt u x then x else u)) := rfl
        simp only [List.foldl_cons, hstep,
          ih (some (if fvLt u x then x else u))]
        simp

set_option maxRecDepth 100000 in
/-- C2 (amended): a window all of whose rows are null in every aggregated
source column produces no output row — a windowed reducer finalizes to null
exactly when it saw only nulls, and a pending window is elided exactly when
every reducer finalized to null; end to end, the all-null middle window of
`nullMidChunk` is skipped. A window with a non-null value produces an output
row for the windowed reducer family, but for the difference family an output
row additionally requires a prior non-null point in the same series, so a
single-point window emits nothing even when its values are non-null. -/
theorem C2_null_window_behaviour :
    (∀ (k : AggKind) (vs : List (Option FieldVal)),
        aggFinal (vs.foldl (aggStep k) (aggInit k)) = none ↔
          ∀ v ∈ vs, v = none) ∧
    (∀ p : PendingWin,
        flushPending p = [] ↔ ∀ a ∈ p.accs, aggFinal a = none) ∧
    StreamAggregateTransform nullMidOpt nullMidSpecs [nullMidChunk] =
      [nullMidExpected] ∧
    NonWindowedTransform (diffAgg 2) [singlePointChunk] = [] := by
  refine ⟨?_, ?_, by with_unfolding_all decide, by with_unfolding_all decide⟩
  · intro k vs
    cases k with
    | count => simpa [aggInit] using cnt_fold_none vs 0
    | minAgg => simpa [aggInit] using sel_fold_none_min vs none
    | maxAgg => simpa [aggInit] using sel_fold_none_max vs none
  · intro p
    simp only [flushPending]
    split
    · rename_i hall
      simp only [List.all_eq_true] at hall
      constructor
      · intro _ a ha
        have h2 := hall (aggFinal a) (List.mem_map_of_mem _ ha)
        simpa [Option.isNone_iff_eq_none] using h2
      · intro _
        rfl
    · rename_i hall
      constructor
      · intro h
        simp at h
      · intro h
        exfalso
        apply hall
        simp only [List.all_eq_true]
        intro v hv
        obtain ⟨a, ha, rfl⟩ := List.mem_map.1 hv
        simp [Option.isNone_iff_eq_none, h a ha]

theorem saRunRows_append {σ : Type} (M : SeriesAgg σ) (xs ys : List Row) (st : σ) :
    saRunRows M (xs ++ ys) st =
      ((saRunRows M ys (saRunRows M xs st).1).1,
       (saRunRows M xs st).2 ++ (saRunRows M ys (saRunRows M xs st).1).2) := by
  induction xs generalizing st with
  | nil => simp [saRunRows]
  | cons r rest ih =>
    simp only [List.cons_append, saRunRows, List.append_eq]
    rw [ih]
    simp [List.append_assoc]

theorem saRunSegs_regroup {σ : Type} (M : SeriesAgg σ)
    (segs : List (String × List Row)) :
    ∀ (tag : String) (st : σ),
      saRunSegs M segs tag st = saRunSegs M (regroup segs) tag st := by
  induction segs with
  | nil =>
    intro tag st
    rfl
  | cons seg rest ih =>
    intro tag st
    cases hreg : regroup rest with
    | nil =>
      have h1 : regroup (seg :: rest) = [seg] := by
        simp [regroup, hreg]
      rw [h1]
      by_cases h : seg.1 = tag
      · simp only [saRunSegs, if_pos h]
        rw [ih tag, hreg]
        simp [saRunSegs]
      · simp only [saRunSegs, if_neg h]
        rw [ih seg.1, hreg]
        simp [saRunSegs]
    | cons seg2 rest2 =>
      by_cases h2 : seg.1 = seg2.1
      · have h1 : regroup (seg :: rest) = (seg.1, seg.2 ++ seg2.2) :: rest2 := by
          simp [regroup, hreg, h2]
        rw [h1]
        by_cases h : seg.1 = tag
        · have h3 : seg2.1 = tag := by rw [← h2]; exact h
          simp only [saRunSegs, if_pos h]
          rw [ih tag, hreg]
          simp only [saRunSegs, if_pos h3, saRunRows_append]
          simp [List.append_assoc]
        · have h3 : seg2.1 = seg.1 := h2.symm
          simp only [saRunSegs, if_neg h]
          rw [ih seg.1, hreg]
          simp only [saRunSegs, if_pos h3, saRunRows_append]
          simp [List.append_assoc]
      · have h1 : regroup (seg :: rest) = seg :: seg2 :: rest2 := by
          simp [regroup, hreg, h2]
        rw [h1]
        by_cases h : seg.1 = tag
        · simp only [saRunSegs, if_pos h]
          rw [ih tag, hreg]
          simp [saRunSegs]
        · simp only [saRunSegs, if_neg h]
          rw [ih seg.1, hreg]
          simp [saRunSegs]

theorem saRunTop_regroup {σ : Type} (M : SeriesAgg σ)
    (segs : List (String × List Row)) :
    saRunTop M segs = saRunTop M (regroup segs) := by
  cases segs with
  | nil => rfl
  | cons seg rest =>
    cases hreg : regroup rest with
    | nil =>
      have h1 : regroup (seg :: rest) = [seg] := by
        simp [regroup, hreg]
      rw [h1]
      simp only [saRunTop]
      rw [saRunSegs_regroup M rest, hreg]
    | cons seg2 rest2 =>
      by_cases h2 : seg.1 = seg2.1
      · have h1 : regroup (seg :: rest) = (seg.1, seg.2 ++ seg2.2) :: rest2 := by
          simp [regroup, hreg, h2]
        rw [h1]
        simp only [saRunTop]
        rw [saRunSegs_regroup M rest, hreg]
        simp only [saRunSegs, if_pos h2.symm, saRunRows_append]
        simp [List.append_assoc]
      · have h1 : regroup (seg :: rest) = seg :: seg2 :: rest2 := by
          simp [regroup, hreg, h2]
        rw [h1]
        simp only [saRunTop]
        rw [saRunSegs_regroup M rest, hreg]


set_option maxRecDepth 100000 in
/-- C3: in the non-windowed reducer regime, carry state is threaded across
window and chunk boundaries within one tag group and reset at tag-group
boundaries, so the output of any series reducer depends only on the
regrouped series stream: two chunkings of the same rows — in particular
chunks of size 1 versus one larger chunk — yield identical output. The
`rate` instance on the chunk-size-1 fixture equals its output on the
combined chunk and emits the expected single `country=american` row at time
4 with rates (102 − 20.5)/(10 − 1)·20 = 1630/9 and
(191 − 138)/(10 − 4)·20 = 530/3. -/
theorem C3_nonwindowed_carry :
    (∀ (σ : Type) (M : SeriesAgg σ) (cs1 cs2 : List Chunk),
        regroup (cs1.map Chunk.groups).flatten =
          regroup (cs2.map Chunk.groups).flatten →
        NonWindowedTransform M cs1 = NonWindowedTransform M cs2) ∧
    NonWindowedTransform (rateAgg 20 2) comSize1Chunks =
      NonWindowedTransform (rateAgg 20 2) [comSize1Combined] ∧
    NonWindowedTransform (rateAgg 20 2) comSize1Chunks =
      [("country=american",
        { time := 4, vals := [some (.f (1630 / 9)), some (.f (530 / 3))] })] := by
  refine ⟨?_, by with_unfolding_all decide, by with_unfolding_all decide⟩
  intro σ M cs1 cs2 h
  unfold NonWindowedTransform
  rw [saRunTop_regroup M (cs1.map Chunk.groups).flatten, h,
    ← saRunTop_regroup M (cs2.map Chunk.groups).flatten]

set_option maxRecDepth 100000 in
/-- Witness for C3: the chunk-size-1 rate fixture and its combined chunk
have the same regrouped series stream, and the transform gives them the same
output. -/
theorem C3_nonwindowed_carry_witness :
    regroup ((comSize1Chunks.map Chunk.groups).flatten) =
      regroup (([comSize1Combined].map Chunk.groups).flatten) ∧
    NonWindowedTransform (rateAgg 20 2) comSize1Chunks =
      NonWindowedTransform (rateAgg 20 2) [comSize1Combined] :=
  ⟨by with_unfolding_all decide,
   C3_nonwindowed_carry.1 RateState (rateAgg 20 2) comSize1Chunks
     [comSize1Combined] (by with_unfolding_all decide)⟩

theorem strictInc_cons_of (a : Nat) (l : List Nat) (h : strictInc l = true)
    (hhead : ∀ b, l.head? = some b → a < b) : strictInc (a :: l) = true := by
  cases l with
  | nil => rfl
  | cons b rest =>
    have hb := hhead b rfl
    simp only [strictInc, Bool.and_eq_true, decide_eq_true_eq]
    exact ⟨hb, h⟩

theorem strictInc_tail (a : Nat) (l : List Nat) (h : strictInc (a :: l) = true) :
    strictInc l = true := by
  cases l with
  | nil => rfl
  | cons b rest =>
    simp only [strictInc, Bool.and_eq_true, decide_eq_true_eq] at h
    exact h.2

theorem strictInc_lt_of_mem : ∀ (l : List Nat) (a : Nat),
    strictInc (a :: l) = true → ∀ x ∈ l, a < x := by
  intro l
  induction l with
  | nil =>
    intro a h x hx
    cases hx
  | cons b rest ih =>
    intro a h x hx
    simp only [strictInc, Bool.and_eq_true, decide_eq_true_eq] at h
    rcases List.mem_cons.1 hx with rfl | hx2
    · exact h.1
    · exact lt_trans h.1 (ih b (by
        cases rest with
        | nil => rfl
        | cons c r =>
          simp only [strictInc, Bool.and_eq_true, decide_eq_true_eq]
          simp only [strictInc, Bool.and_eq_true, decide_eq_true_eq] at h
          exact h.2) x hx2)

theorem strictInc_range' : ∀ (n i : Nat), strictInc (List.range' i n) = true := by
  intro n
  induction n with
  | zero =>
    intro i
    rfl
  | succ m ih =>
    intro i
    rw [List.range'_succ]
    apply strictInc_cons_of _ _ (ih (i + 1))
    intro b hb
    cases m with
    | zero => simp [List.range'] at hb
    | succ k =>
      rw [List.range'_succ] at hb
      simp only [List.head?_cons, Option.some.injEq] at hb
      omega

theorem isSubseq_range' : ∀ (n : Nat) (l : List Nat) (i : Nat),
    strictInc l = true → (∀ x ∈ l, i ≤ x ∧ x < i + n) →
    isSubseq l (List.range' i n) = true := by
  intro n
  induction n with
  | zero =>
    intro l i hs h
    cases l with
    | nil => rfl
    | cons a as =>
      have := h a (by simp)
      omega
  | succ m ih =>
    intro l i hs h
    cases l with
    | nil => rfl
    | cons a as =>
      rw [List.range'_succ]
      by_cases ha : a = i
      · simp only [isSubseq, if_pos ha]
        apply ih as (i + 1) (strictInc_tail a as hs)
        intro x hx
        have h1 := h x (List.mem_cons_of_mem a hx)
        have h2 := strictInc_lt_of_mem as a hs x hx
        omega
      · simp only [isSubseq, if_neg ha]
        apply ih (a :: as) (i + 1) hs
        intro x hx
        rcases List.mem_cons.1 hx with rfl | hx2
        · have h1 := h x (by simp)
          omega
        · have h1 := h x (List.mem_cons_of_mem a hx2)
          have h2 := strictInc_lt_of_mem as a hs x hx2
          have h3 := h a (by simp)
          omega

theorem tagBoundaries_spec : ∀ (rows : List (String × Row)) (idx : Nat)
    (cur : Option String),
    (∀ x ∈ (tagBoundaries rows idx cur).2,
        idx ≤ x ∧ x < idx + rows.length) ∧
    strictInc (tagBoundaries rows idx cur).2 = true ∧
    (tagBoundaries rows idx cur).2.length ≤ rows.length := by
  intro rows
  induction rows with
  | nil =>
    intro idx cur
    refine ⟨?_, rfl, by simp [tagBoundaries]⟩
    intro x hx
    simp [tagBoundaries] at hx
  | cons g rest ih =>
    intro idx cur
    obtain ⟨ihb, ihs, ihl⟩ := ih (idx + 1) (some g.1)
    simp only [tagBoundaries]
    split
    · refine ⟨?_, ihs, ?_⟩
      · intro x hx
        have := ihb x hx
        simp only [List.length_cons]
        omega
      · simp only [List.length_cons]
        omega
    · refine ⟨?_, ?_, ?_⟩
      · intro x hx
        rcases List.mem_cons.1 hx with rfl | hx2
        · simp only [List.length_cons]
          omega
        · have := ihb x hx2
          simp only [List.length_cons]
          omega
      · apply strictInc_cons_of _ _ ihs
        intro b hb
        have hmem := List.mem_of_mem_head? hb
        have := ihb b hmem
        omega
      · simp only [List.length_cons, List.length_cons]
        omega


theorem tagBoundaries_head (g : String × Row) (rows : List (String × Row))
    (idx : Nat) :
    (tagBoundaries (g :: rows) idx none).2.head? = some idx := by
  simp [tagBoundaries]

theorem splitEveryAux_ne_nil {α : Type} (size : Nat) :
    ∀ (fuel : Nat) (l : List α), ∀ piece ∈ splitEveryAux size fuel l,
      piece ≠ [] := by
  intro fuel
  induction fuel with
  | zero =>
    intro l piece h
    simp only [splitEveryAux] at h
    split at h
    · simp at h
    · rename_i hne
      simp only [List.mem_singleton] at h
      subst h
      simpa [List.isEmpty_iff] using hne
  | succ m ih =>
    intro l piece h
    cases l with
    | nil => simp [splitEveryAux] at h
    | cons x rest =>
      simp only [splitEveryAux] at h
      split at h
      · simp only [List.mem_singleton] at h
        subst h
        simp
      · rcases List.mem_cons.1 h with rfl | h2
        · rename_i hsz
          cases size with
          | zero => exact absurd rfl hsz
          | succ s => simp [List.take_cons]
        · exact ih _ _ h2

theorem buildOutChunk_invariant (name : String) (ncols : Nat)
    (rows : List (String × Row)) (hne : rows ≠ []) :
    chunkInvariant (buildOutChunk name ncols rows) = true := by
  obtain ⟨g, rest, rfl⟩ := List.exists_cons_of_ne_nil hne
  obtain ⟨hb, hs, hl⟩ := tagBoundaries_spec (g :: rest) 0 none
  simp only [chunkInvariant, buildOutChunk, Chunk.RowNums, Bool.and_eq_true,
    decide_eq_true_eq, beq_iff_eq]
  refine ⟨⟨⟨⟨⟨⟨?_, ?_⟩, hs⟩, ?_⟩, ?_⟩, ?_⟩, ?_⟩
  · simpa using hl
  · simp
  · rw [List.range_eq_range']
    exact strictInc_range' _ 0
  · exact tagBoundaries_head g rest 0
  · rw [List.range_eq_range']
    simp [List.range'_succ]
  · rw [List.range_eq_range']
    apply isSubseq_range' _ _ 0 hs
    intro x hx
    simpa using hb x hx

set_option maxRecDepth 400000 in
/-- C9: the chunk structural invariant — `len(tagIndex) ≤ len(intervalIndex)
≤ RowNums`, both index sequences strictly increasing and starting at 0, tag
boundaries a subsequence of interval boundaries — holds for every fixture
chunk of this development (sources, targets and null fixtures, transcribed
from the chunk-building calls of agg_transform_test.go), and for every chunk
the modelled streaming aggregate transform emits, on any input. -/
theorem C9_chunk_invariant :
    ([buildSourceChunk1, buildSourceChunk2, buildTargetChunk,
      sourceChunkUnsplit, targetChunkUnsplit, srcNullChunk1, srcNullChunk2,
      dstNullChunkForCount, comNullWindowChunk1, comNullWindowChunk2,
      comSize1Combined, nullMidChunk, nullMidExpected,
      singlePointChunk].all chunkInvariant = true ∧
     comSize1Chunks.all chunkInvariant = true) ∧
    (∀ (opt : ProcessorOptions) (specs : List AggSpec) (chunks : List Chunk),
      (StreamAggregateTransform opt specs chunks).all chunkInvariant = true) := by
  refine ⟨by with_unfolding_all decide, ?_⟩
  intro opt specs chunks
  simp only [StreamAggregateTransform, List.all_eq_true]
  intro c hc
  obtain ⟨piece, hpiece, rfl⟩ := List.mem_map.1 hc
  apply buildOutChunk_invariant
  simp only [splitEvery] at hpiece
  exact splitEveryAux_ne_nil _ _ _ _ hpiece

/-- C4: for a series emitting `R` rows in the requested time order, the
cursor's LIMIT/OFFSET rule returns exactly `min l (R - o)` rows (`Nat`
subtraction, i.e. `max 0 (min l (R - o))`), still in the requested order,
and the row at output position `i` is the input row at logical position
`o + i`. -/
theorem C4_cursor_limit (rows : List Row) (o l : Nat) (_hl : 0 < l)
    (hord : List.Chain' (fun a b => a.time ≤ b.time) rows) :
    (cursorSelect rows o l).length = min l (rows.length - o) ∧
    List.Chain' (fun a b => a.time ≤ b.time) (cursorSelect rows o l) ∧
    ∀ i : Nat, (cursorSelect rows o l)[i]? =
      if i < l then rows[o + i]? else none := by
  refine ⟨?_, ?_, ?_⟩
  · simp [cursorSelect]
  · exact (hord.drop o).take l
  · intro i
    by_cases hi : i < l
    · rw [if_pos hi]
      show ((rows.drop o).take l)[i]? = rows[o + i]?
      rw [List.getElem?_take_of_lt hi, List.getElem?_drop]
    · rw [if_neg hi]
      apply List.getElem?_eq_none
      have h1 : (cursorSelect rows o l).length ≤ l := by
        simp [cursorSelect]
      omega

/-- Witness for C4 at a four-row series with offset 1 and limit 2. -/
theorem C4_cursor_limit_witness :
    (cursorSelect cursorRowsW 1 2).length = min 2 (cursorRowsW.length - 1) ∧
    List.Chain' (fun a b => a.time ≤ b.time) (cursorSelect cursorRowsW 1 2) ∧
    (cursorSelect cursorRowsW 1 2)[0]? =
      (if 0 < 2 then cursorRowsW[1 + 0]? else none) :=
  ⟨(C4_cursor_limit cursorRowsW 1 2 (by decide)
      (by simp [cursorRowsW, List.chain'_cons])).1,
   (C4_cursor_limit cursorRowsW 1 2 (by decide)
      (by simp [cursorRowsW, List.chain'_cons])).2.1,
   (C4_cursor_limit cursorRowsW 1 2 (by decide)
      (by simp [cursorRowsW, List.chain'_cons])).2.2 0⟩

end OpenGemini
